import Mathlib

/-!
Shallow embedding of geocode_google.py.

The external geocoding service is modelled as an oracle of type
String to Except String (GeoResponse A): an Except.error models a raised
exception (network fault, non-success HTTP status), an Except.ok carries the
parsed JSON body (a status string and a list of latitude/longitude results).
Coordinates are an arbitrary type A since the program only passes them
through. Observable effects (HTTP calls, the inter-record time.sleep, and
writes to the output file) are recorded in an event trace.

Python string primitives (strip, strip of quote characters, split on comma,
split on first comma, replace of doubled quotes, quote escaping) are embedded
as character-list functions with the same semantics.
-/

/-- Python s.strip of a custom character set, left side: drop leading
characters satisfying p. Right side is dropTrailing below. -/
def dropTrailing (p : Char → Bool) (l : List Char) : List Char :=
  (l.reverse.dropWhile p).reverse

/-- Python str.strip with no arguments: remove leading and trailing
whitespace characters. -/
def pyStripL (l : List Char) : List Char :=
  dropTrailing Char.isWhitespace (l.dropWhile Char.isWhitespace)

/-- Character test for the double-quote character. -/
def isQuote (c : Char) : Bool := c == '"'

/-- Python s.strip of the quote character, as used in
geocode_with_trimming: removes all leading and trailing quote characters. -/
def pyStripQuotesL (l : List Char) : List Char :=
  dropTrailing isQuote (l.dropWhile isQuote)

/-- Python s.split on the comma character: every comma is a separator,
empty pieces are kept, the empty string yields one empty piece. -/
def splitCommaL : List Char → List (List Char)
  | [] => [[]]
  | c :: rest =>
    if c = ',' then [] :: splitCommaL rest
    else
      match splitCommaL rest with
      | [] => [[c]]
      | p :: ps => (c :: p) :: ps

/-- Python s.split with a comma and maxsplit 1: locate the first comma and
return the text before and after it; none when there is no comma. -/
def splitFirstCommaL : List Char → Option (List Char × List Char)
  | [] => none
  | c :: rest =>
    if c = ',' then some ([], rest)
    else (splitFirstCommaL rest).map (fun pr => (c :: pr.1, pr.2))

/-- Python s.replace of a doubled quote by a single quote, scanning left to
right without overlap. -/
def collapseQQ : List Char → List Char
  | [] => []
  | [c] => [c]
  | c :: d :: rest =>
    if c = '"' ∧ d = '"' then '"' :: collapseQQ rest
    else c :: collapseQQ (d :: rest)

/-- Python s.replace of a single quote by a doubled quote, used when writing
the address field of an output row. -/
def escapeQ : List Char → List Char
  | [] => []
  | c :: rest => if c = '"' then '"' :: '"' :: escapeQ rest else c :: escapeQ rest

/-- String version of Python str.strip. -/
def pyStrip (s : String) : String := ⟨pyStripL s.toList⟩

/-- Normalization performed at the top of geocode_with_trimming:
addr.strip followed by a strip of quote characters. -/
def normalize_addr (s : String) : String := ⟨pyStripQuotesL (pyStripL s.toList)⟩

/-- Comma segments of the normalized address: split on commas, strip each
piece, keep the non-empty pieces, exactly as the list comprehension in
geocode_with_trimming. -/
def segments (s : String) : List String :=
  (((splitCommaL s.toList).map pyStripL).filter (fun l => l ≠ [])).map
    (fun l => (⟨l⟩ : String))

/-- Parsed body of one geocoding response: the status field and the list of
result locations. -/
structure GeoResponse (α : Type) where
  status : String
  results : List (α × α)

/-- The external geocoding service: an address maps either to a raised
exception (Except.error) or to a parsed response body. -/
abbrev Geo (α : Type) := String → Except String (GeoResponse α)

/-- Observable effects of a run: an HTTP geocoding call for a candidate
address, the fixed inter-request delay (time.sleep), and a write of one
line to the output file. -/
inductive Event where
  | call : String → Event
  | sleep : Event
  | write : String → Event
deriving DecidableEq

/-- Embedding of geocode_once: one call event, then either the propagated
exception or the triple (lat, lng, status) computed from the body exactly as
in the source: non-OK status gives absent coordinates with that status, an
OK status with an empty results list gives absent coordinates with status
OK, otherwise the first result is taken. -/
def geocode_once {α : Type} (g : Geo α) (addr : String) :
    List Event × Except String (Option α × Option α × String) :=
  ⟨[Event.call addr],
    match g addr with
    | Except.error e => Except.error e
    | Except.ok data =>
      if data.status ≠ "OK" then Except.ok (none, none, data.status)
      else
        match data.results with
        | [] => Except.ok (none, none, data.status)
        | (la, ln) :: _ => Except.ok (some la, some ln, data.status)⟩

/-- Embedding of the for-loop of geocode_with_trimming: n counts down from
the number of segments to 1, the candidate is the comma-join of the first n
segments; an OK status returns the coordinates from geocode_once, a
ZERO_RESULTS status continues with the next shorter candidate, any other
status breaks out of the loop, and loop exhaustion returns absent
coordinates. -/
def trimLoop {α : Type} (g : Geo α) (parts : List String) :
    Nat → List Event × Except String (Option α × Option α)
  | 0 => ([], Except.ok (none, none))
  | n + 1 =>
    match geocode_once g (String.intercalate ", " (parts.take (n + 1))) with
    | (ev, Except.error e) => (ev, Except.error e)
    | (ev, Except.ok (la, ln, status)) =>
      if status = "OK" then (ev, Except.ok (la, ln))
      else if status = "ZERO_RESULTS" then
        (ev ++ (trimLoop g parts n).1, (trimLoop g parts n).2)
      else (ev, Except.ok (none, none))

/-- Embedding of geocode_with_trimming: normalize the address, return
absent coordinates when the normalized address or its segment list is
empty, otherwise run the truncation loop from the full segment count. -/
def geocode_with_trimming {α : Type} (g : Geo α) (addr : String) :
    List Event × Except String (Option α × Option α) :=
  if normalize_addr addr = "" then ([], Except.ok (none, none))
  else if segments (normalize_addr addr) = [] then ([], Except.ok (none, none))
  else trimLoop g (segments (normalize_addr addr)) (segments (normalize_addr addr)).length

/-- Post-processing of the address part in parse_line: strip whitespace,
remove one pair of outer quote characters when the text both starts and
ends with a quote, then collapse doubled quotes. -/
def addrClean (s : String) : String :=
  if (pyStrip s).toList.head? = some '"' ∧ (pyStrip s).toList.getLast? = some '"'
  then ⟨collapseQQ (((pyStrip s).toList.drop 1).dropLast)⟩
  else ⟨collapseQQ (pyStrip s).toList⟩

/-- Embedding of parse_line: strip the line; a blank line or a line whose
lowercase form starts with the three characters i, d, comma is skipped
(none); otherwise split at the first comma, with no comma the whole
(re-stripped) line is the row id and the address is empty, else the row id
is the stripped text before the comma and the address is the cleaned text
after it. -/
def parse_line (line : String) : Option (String × String) :=
  if pyStrip line = "" then none
  else if List.isPrefixOf ['i', 'd', ','] ((pyStrip line).toList.map Char.toLower) then none
  else
    match splitFirstCommaL (pyStrip line).toList with
    | none => some (pyStrip (pyStrip line), "")
    | some (pre, post) => some (pyStrip ⟨pre⟩, addrClean ⟨post⟩)

/-- Rendering of an optional coordinate in an output row: empty text for
absent, otherwise str of the value. -/
def optStr {α : Type} [ToString α] : Option α → String
  | none => ""
  | some v => toString v

/-- The output row format string of main: row id, the quote-escaped address
in quotes, then the two coordinate fields, then a newline. -/
def outLine {α : Type} [ToString α] (rid addr : String) (la ln : Option α) : String :=
  rid ++ ",\"" ++ (⟨escapeQ addr.toList⟩ : String) ++ "\"," ++ optStr la ++ ","
    ++ optStr ln ++ "\n"

/-- Coordinates main ends up with for a non-empty address: the resolver
result on success, absent coordinates when the resolver raised. -/
def resolve {α : Type} (g : Geo α) (addr : String) : Option α × Option α :=
  match (geocode_with_trimming g addr).2 with
  | Except.ok p => p
  | Except.error _ => (none, none)

/-- Effects of one iteration of the for-loop of main on one input line:
skipped lines produce nothing; an empty parsed address writes the fixed
empty-address row and moves on without calling the service and without
sleeping; otherwise the resolver runs (its calls appear in the trace), the
output row is written with the original parsed address, and the fixed delay
follows. -/
def processLine {α : Type} [ToString α] (g : Geo α) (line : String) : List Event :=
  match parse_line line with
  | none => []
  | some (rid, addr) =>
    if addr = "" then [Event.write (rid ++ ",\"\",,\n")]
    else
      (geocode_with_trimming g addr).1
        ++ [Event.write (outLine rid addr (resolve g addr).1 (resolve g addr).2),
            Event.sleep]

/-- The for-loop of main over all input lines. -/
def mainLoop {α : Type} [ToString α] (g : Geo α) : List String → List Event
  | [] => []
  | l :: rest => processLine g l ++ mainLoop g rest

/-- Full event trace of main: the output header line is written first, then
the loop over the input lines runs. -/
def mainEvents {α : Type} [ToString α] (g : Geo α) (lines : List String) : List Event :=
  Event.write "id,address,lat,lng\n" :: mainLoop g lines

/-- Lines written to the output file, read off the event trace. -/
def writesOf (tr : List Event) : List String :=
  tr.filterMap fun e =>
    match e with
    | Event.write s => some s
    | _ => none

/-- The output row main writes for one parsed record. -/
def recordLine {α : Type} [ToString α] (g : Geo α) (rid addr : String) : String :=
  if addr = "" then rid ++ ",\"\",,\n"
  else outLine rid addr (resolve g addr).1 (resolve g addr).2

/-- Status the oracle reports for an address: none when the call raises. -/
def statusOf {α : Type} (g : Geo α) (a : String) : Option String :=
  match g a with
  | Except.ok r => some r.status
  | Except.error _ => none

deriving instance DecidableEq for Except

deriving instance DecidableEq for GeoResponse

/-- Pacing property formalizing claim C3: between every two consecutive
geocoding call events of a trace (consecutive meaning no other call event
lies strictly between them) there is a sleep event strictly between
them. -/
def Paced (tr : List Event) : Prop :=
  ∀ i j : Nat, i < j → (∃ a, tr[i]? = some (Event.call a)) →
    (∃ b, tr[j]? = some (Event.call b)) →
    (∀ k : Nat, ∀ a, i < k → k < j → tr[k]? ≠ some (Event.call a)) →
    ∃ k : Nat, i < k ∧ k < j ∧ tr[k]? = some Event.sleep

/-- Specification-side normalization following claim C5's words: strip
surrounding whitespace, then remove at most a single pair of surrounding
quote characters, one leading quote and one matching trailing quote. -/
def normalize_spec (s : String) : String :=
  if (pyStrip s).toList.head? = some '"' ∧ (pyStrip s).toList.getLast? = some '"'
      ∧ 2 ≤ (pyStrip s).toList.length
  then ⟨((pyStrip s).toList.drop 1).dropLast⟩
  else pyStrip s

/-- Specification-side parser following claim C7's words: split the
stripped line at its first comma, everything before the comma is the row
id and everything after it is the raw address, both verbatim; with no
comma the whole line is the row id and the address is empty. -/
def parse_line_claim (line : String) : Option (String × String) :=
  if pyStrip line = "" then none
  else if List.isPrefixOf ['i', 'd', ','] ((pyStrip line).toList.map Char.toLower) then none
  else
    match splitFirstCommaL (pyStrip line).toList with
    | none => some (pyStrip line, "")
    | some (pre, post) => some (⟨pre⟩, ⟨post⟩)

/-- Oracle for the C1 witness: terminal status on the full candidate, OK
with coordinates on everything else. -/
def gOracleC1 : Geo Int := fun a =>
  if a = "a, b" then Except.ok ⟨"REQUEST_DENIED", []⟩
  else Except.ok ⟨"OK", [((1 : Int), 2)]⟩

/-- Oracle for the C3 counterexample and the C4 witness: ZERO_RESULTS on
the full candidate, OK on the shortened one. -/
def gOracleZR : Geo Int := fun a =>
  if a = "a, b" then Except.ok ⟨"ZERO_RESULTS", []⟩
  else Except.ok ⟨"OK", [((1 : Int), 2)]⟩

/-- Oracle answering OK with coordinates on every candidate. -/
def gOracleOK : Geo Int := fun _ => Except.ok ⟨"OK", [((1 : Int), 2)]⟩

/-- Oracle answering OK with an empty results list on every candidate. -/
def gOracleOKEmpty : Geo Int := fun _ => Except.ok ⟨"OK", []⟩

/-- Oracle for the C6 witness: OK on the full two-segment candidate,
ZERO_RESULTS otherwise. -/
def gOracleC6 : Geo Int := fun a =>
  if a = "Moscow, Main St" then Except.ok ⟨"OK", [((55 : Int), 37)]⟩
  else Except.ok ⟨"ZERO_RESULTS", []⟩

/-- Oracle for the C9 witness: every call raises. -/
def gOracleRaise : Geo Int := fun _ => Except.error "ConnectionError"

/-! Helper lemmas about the character-level primitives. -/

/-- A takeWhile of the equality test with a fixed character is a replicate
of that character. -/
theorem takeWhile_beq_replicate (c : Char) (l : List Char) :
    l.takeWhile (fun x => x == c)
      = List.replicate (l.takeWhile (fun x => x == c)).length c := by
  induction l with
  | nil => rfl
  | cons a l ih =>
    by_cases h : a = c
    · subst h
      simpa [List.takeWhile_cons, List.replicate_succ] using ih
    · simp [List.takeWhile_cons, h]

/-- The head of a dropWhile does not satisfy the dropped predicate. -/
theorem head?_dropWhile_false (p : Char → Bool) (l : List Char) (a : Char)
    (h : (l.dropWhile p).head? = some a) : p a = false := by
  induction l with
  | nil => cases h
  | cons b l ih =>
    by_cases hb : p b
    · rw [List.dropWhile_cons, if_pos hb] at h
      exact ih h
    · rw [List.dropWhile_cons, if_neg hb] at h
      cases h
      exact Bool.not_eq_true _ |>.mp hb

/-- A list is its trailing-drop followed by the dropped trailing run. -/
theorem dropTrailing_append (p : Char → Bool) (l : List Char) :
    l = dropTrailing p l ++ (l.reverse.takeWhile p).reverse := by
  calc l = l.reverse.reverse := l.reverse_reverse.symm
    _ = (l.reverse.takeWhile p ++ l.reverse.dropWhile p).reverse := by
        rw [List.takeWhile_append_dropWhile]
    _ = (l.reverse.dropWhile p).reverse ++ (l.reverse.takeWhile p).reverse := by
        rw [List.reverse_append]
    _ = dropTrailing p l ++ (l.reverse.takeWhile p).reverse := rfl

/-- The last element left by dropTrailing does not satisfy the predicate. -/
theorem getLast?_dropTrailing_false (p : Char → Bool) (l : List Char) (a : Char)
    (h : (dropTrailing p l).getLast? = some a) : p a = false := by
  have h2 : (l.reverse.dropWhile p).head? = some a := by
    have := List.getLast?_reverse (l.reverse.dropWhile p)
    rw [← this]
    exact h
  exact head?_dropWhile_false p l.reverse a h2

/-- Dropping a trailing run does not change the head of the list. -/
theorem head?_dropTrailing (p : Char → Bool) (l : List Char) (a : Char)
    (h : (dropTrailing p l).head? = some a) : l.head? = some a := by
  have hd := dropTrailing_append p l
  cases hdt : dropTrailing p l with
  | nil => rw [hdt] at h; cases h
  | cons x xs =>
    rw [hdt] at h hd
    simp only [List.head?_cons, Option.some.injEq] at h
    rw [hd, List.cons_append, List.head?_cons, h]

/-- If the head fails the predicate, dropWhile keeps the list whole. -/
theorem dropWhile_eq_self (p : Char → Bool) (l : List Char)
    (h : ∀ a, l.head? = some a → p a = false) : l.dropWhile p = l := by
  cases l with
  | nil => rfl
  | cons a l =>
    rw [List.dropWhile_cons, if_neg]
    simp [h a rfl]

/-- If the last element fails the predicate, dropTrailing keeps the list
whole. -/
theorem dropTrailing_eq_self (p : Char → Bool) (l : List Char)
    (h : ∀ a, l.getLast? = some a → p a = false) : dropTrailing p l = l := by
  unfold dropTrailing
  rw [dropWhile_eq_self p l.reverse, l.reverse_reverse]
  intro a ha
  rw [List.head?_reverse] at ha
  exact h a ha

/-- Stripping whitespace is idempotent on character lists. -/
theorem pyStripL_idem (l : List Char) : pyStripL (pyStripL l) = pyStripL l := by
  unfold pyStripL
  have h1 : (dropTrailing Char.isWhitespace
      (l.dropWhile Char.isWhitespace)).dropWhile Char.isWhitespace
      = dropTrailing Char.isWhitespace (l.dropWhile Char.isWhitespace) := by
    apply dropWhile_eq_self
    intro a ha
    exact head?_dropWhile_false Char.isWhitespace l a
      (head?_dropTrailing Char.isWhitespace (l.dropWhile Char.isWhitespace) a ha)
  rw [h1]
  apply dropTrailing_eq_self
  intro a ha
  exact getLast?_dropTrailing_false Char.isWhitespace
    (l.dropWhile Char.isWhitespace) a ha

/-- Character list of a string built from a character list. -/
theorem toList_mk (l : List Char) : (⟨l⟩ : String).toList = l := rfl

/-- Stripping whitespace is idempotent on strings. -/
theorem pyStrip_idem (s : String) : pyStrip (pyStrip s) = pyStrip s := by
  unfold pyStrip
  rw [toList_mk, pyStripL_idem]

/-- String append is associative. -/
theorem strAssoc (a b c : String) : a ++ b ++ c = a ++ (b ++ c) := by
  rcases a with ⟨la⟩; rcases b with ⟨lb⟩; rcases c with ⟨lc⟩
  show String.mk (la ++ lb ++ lc) = String.mk (la ++ (lb ++ lc))
  rw [List.append_assoc]

/-- The general row format at an empty address with absent coordinates is
exactly the literal empty-address row of main. -/
theorem outLine_empty {α : Type} [ToString α] (rid : String) :
    outLine rid "" (none : Option α) none = rid ++ ",\"\",,\n" := by
  unfold outLine
  simp only [strAssoc]
  congr 1

/-- Indexing into a one-element list. -/
theorem get?_singleton {β : Type} (x y : β) (i : Nat) (h : [x].get? i = some y) :
    i = 0 ∧ x = y := by
  cases i with
  | zero => simp only [List.get?_cons_zero, Option.some.injEq] at h; exact ⟨rfl, h⟩
  | succ n => simp at h

/-- Every event emitted by the truncation loop is a geocoding call. -/
theorem trimLoop_calls {α : Type} (g : Geo α) (parts : List String) :
    ∀ n, ∀ e ∈ (trimLoop g parts n).1, ∃ a, e = Event.call a := by
  intro n
  induction n with
  | zero => intro e he; simp [trimLoop] at he
  | succ n ih =>
    intro e he
    cases hg : g (String.intercalate ", " (parts.take (n + 1))) with
    | error err =>
      simp [trimLoop, geocode_once, hg] at he
      exact ⟨_, he⟩
    | ok data =>
      by_cases hst : data.status = "OK"
      · cases hres : data.results with
        | nil =>
          simp [trimLoop, geocode_once, hg, hst, hres] at he
          exact ⟨_, he⟩
        | cons r tl =>
          rcases r with ⟨la, ln⟩
          simp [trimLoop, geocode_once, hg, hst, hres] at he
          exact ⟨_, he⟩
      · by_cases hzr : data.status = "ZERO_RESULTS"
        · simp [trimLoop, geocode_once, hg, hst, hzr] at he
          rcases he with he | he
          · exact ⟨_, he⟩
          · exact ih e he
        · simp [trimLoop, geocode_once, hg, hst, hzr] at he
          exact ⟨_, he⟩

/-- Every event emitted by the resolver is a geocoding call: the resolver
neither writes output nor sleeps. -/
theorem trim_calls {α : Type} (g : Geo α) (addr : String) :
    ∀ e ∈ (geocode_with_trimming g addr).1, ∃ a, e = Event.call a := by
  intro e he
  unfold geocode_with_trimming at he
  by_cases h1 : normalize_addr addr = ""
  · simp [h1] at he
  · by_cases h2 : segments (normalize_addr addr) = []
    · simp [h1, h2] at he
    · simp only [h1, h2, if_false, if_neg] at he
      exact trimLoop_calls g _ _ e he

/-- Indexing into a one-element list pins the index and the element. -/
theorem getElem?_singleton {β : Type} (x y : β) (i : Nat)
    (h : ([x] : List β)[i]? = some y) : i = 0 ∧ x = y := by
  cases i with
  | zero => simp only [List.getElem?_cons_zero, Option.some.injEq] at h; exact ⟨rfl, h⟩
  | succ n => simp at h

/-- Core of the terminal-status behaviour: inside the truncation loop, a
call whose status is neither OK nor ZERO_RESULTS is the last call the loop
issues, and the loop result is absent coordinates. -/
theorem trimLoop_terminal {α : Type} (g : Geo α) (parts : List String) (s : String)
    (hok : s ≠ "OK") (hzr : s ≠ "ZERO_RESULTS") :
    ∀ n i c, (trimLoop g parts n).1[i]? = some (Event.call c) →
      statusOf g c = some s →
      (trimLoop g parts n).1.length = i + 1
        ∧ (trimLoop g parts n).2 = Except.ok (none, none) := by
  intro n
  induction n with
  | zero => intro i c hc _; simp [trimLoop] at hc
  | succ n ih =>
    intro i c hc hs
    cases hg : g (String.intercalate ", " (parts.take (n + 1))) with
    | error err =>
      simp [trimLoop, geocode_once, hg] at hc
      obtain ⟨hi, hxy⟩ := getElem?_singleton _ _ i hc
      obtain ⟨hcc⟩ := hxy
      simp [statusOf, hg] at hs
    | ok data =>
      by_cases hst : data.status = "OK"
      · cases hres : data.results with
        | nil =>
          simp [trimLoop, geocode_once, hg, hst, hres] at hc
          obtain ⟨hi, hxy⟩ := getElem?_singleton _ _ i hc
          obtain ⟨hcc⟩ := hxy
          simp [statusOf, hg] at hs
          exact absurd (hs.symm.trans hst) hok
        | cons r tl =>
          rcases r with ⟨la, ln⟩
          simp [trimLoop, geocode_once, hg, hst, hres] at hc
          obtain ⟨hi, hxy⟩ := getElem?_singleton _ _ i hc
          obtain ⟨hcc⟩ := hxy
          simp [statusOf, hg] at hs
          exact absurd (hs.symm.trans hst) hok
      · by_cases hz : data.status = "ZERO_RESULTS"
        · simp [trimLoop, geocode_once, hg, hst, hz] at hc ⊢
          cases i with
          | zero =>
            simp only [List.getElem?_cons_zero, Option.some.injEq,
              Event.call.injEq] at hc
            obtain ⟨hcc⟩ := hc
            simp [statusOf, hg] at hs
            exact absurd (hs.symm.trans hz) hzr
          | succ i =>
            simp only [List.getElem?_cons_succ] at hc
            exact ih i c hc hs
        · simp [trimLoop, geocode_once, hg, hst, hz] at hc ⊢
          exact (getElem?_singleton _ _ i hc).1

/-- Core of the implicit OK-with-no-results behaviour: inside the
truncation loop, a call answered with status OK and an empty results list
is the last call the loop issues, and the loop result is absent
coordinates. -/
theorem trimLoop_ok_empty {α : Type} (g : Geo α) (parts : List String) :
    ∀ n i c (resp : GeoResponse α),
      (trimLoop g parts n).1[i]? = some (Event.call c) →
      g c = Except.ok resp → resp.status = "OK" → resp.results = [] →
      (trimLoop g parts n).1.length = i + 1
        ∧ (trimLoop g parts n).2 = Except.ok (none, none) := by
  intro n
  induction n with
  | zero => intro i c resp hc _ _ _; simp [trimLoop] at hc
  | succ n ih =>
    intro i c resp hc hresp hstOK hresNil
    cases hg : g (String.intercalate ", " (parts.take (n + 1))) with
    | error err =>
      simp [trimLoop, geocode_once, hg] at hc
      obtain ⟨hi, hxy⟩ := getElem?_singleton _ _ i hc
      obtain ⟨hcc⟩ := hxy
      rw [hg] at hresp
      cases hresp
    | ok data =>
      by_cases hst : data.status = "OK"
      · cases hres : data.results with
        | nil =>
          simp [trimLoop, geocode_once, hg, hst, hres] at hc ⊢
          exact (getElem?_singleton _ _ i hc).1
        | cons r tl =>
          rcases r with ⟨la, ln⟩
          simp [trimLoop, geocode_once, hg, hst, hres] at hc
          obtain ⟨hi, hxy⟩ := getElem?_singleton _ _ i hc
          obtain ⟨hcc⟩ := hxy
          rw [hg] at hresp
          cases hresp
          rw [hres] at hresNil
          cases hresNil
      · by_cases hz : data.status = "ZERO_RESULTS"
        · simp [trimLoop, geocode_once, hg, hst, hz] at hc ⊢
          cases i with
          | zero =>
            simp only [List.getElem?_cons_zero, Option.some.injEq,
              Event.call.injEq] at hc
            obtain ⟨hcc⟩ := hc
            rw [hg] at hresp
            cases hresp
            exact absurd hstOK hst
          | succ i =>
            simp only [List.getElem?_cons_succ] at hc
            exact ih i c resp hc hresp hstOK hresNil
        · simp [trimLoop, geocode_once, hg, hst, hz] at hc ⊢
          exact (getElem?_singleton _ _ i hc).1

/-- C1: during the truncation loop, a geocoding query answered with any
status other than OK and other than ZERO_RESULTS stops the loop at once:
that call is the last one issued for the record, and the resolver returns
absent coordinates. -/
theorem c1_terminal_status_stops {α : Type} (g : Geo α) (addr : String)
    (i : Nat) (c s : String)
    (hc : (geocode_with_trimming g addr).1[i]? = some (Event.call c))
    (hs : statusOf g c = some s) (hok : s ≠ "OK") (hzr : s ≠ "ZERO_RESULTS") :
    (geocode_with_trimming g addr).1.length = i + 1
      ∧ (geocode_with_trimming g addr).2 = Except.ok (none, none) := by
  unfold geocode_with_trimming at hc ⊢
  by_cases h1 : normalize_addr addr = ""
  · simp [h1] at hc
  · by_cases h2 : segments (normalize_addr addr) = []
    · simp [h1, h2] at hc
    · rw [if_neg h1, if_neg h2] at hc ⊢
      exact trimLoop_terminal g _ s hok hzr _ i c hc hs

/-- C10: during the truncation loop, a geocoding query answered with status
OK but an empty results list stops the loop at once: that call is the last
one issued for the record, and the resolver returns absent coordinates
instead of continuing with shorter candidates. -/
theorem c10_ok_empty_results_stops {α : Type} (g : Geo α) (addr : String)
    (i : Nat) (c : String) (resp : GeoResponse α)
    (hc : (geocode_with_trimming g addr).1[i]? = some (Event.call c))
    (hg : g c = Except.ok resp) (hst : resp.status = "OK")
    (hres : resp.results = []) :
    (geocode_with_trimming g addr).1.length = i + 1
      ∧ (geocode_with_trimming g addr).2 = Except.ok (none, none) := by
  unfold geocode_with_trimming at hc ⊢
  by_cases h1 : normalize_addr addr = ""
  · simp [h1] at hc
  · by_cases h2 : segments (normalize_addr addr) = []
    · simp [h1, h2] at hc
    · rw [if_neg h1, if_neg h2] at hc ⊢
      exact trimLoop_ok_empty g _ _ i c resp hc hg hst hres

/-- C6: when the full untruncated candidate (the comma-join of all
segments) geocodes with status OK and a non-empty results list, the
resolver issues exactly that one query and returns the first result's
coordinates; no shorter candidate is ever queried. -/
theorem c6_full_candidate_ok {α : Type} (g : Geo α) (addr : String)
    (parts : List String) (resp : GeoResponse α) (la ln : α) (tl : List (α × α))
    (hp : segments (normalize_addr addr) = parts) (hne : parts ≠ [])
    (hg : g (String.intercalate ", " parts) = Except.ok resp)
    (hst : resp.status = "OK") (hres : resp.results = (la, ln) :: tl) :
    geocode_with_trimming g addr
      = ([Event.call (String.intercalate ", " parts)],
          Except.ok (some la, some ln)) := by
  have h1 : normalize_addr addr ≠ "" := by
    intro h
    rw [h] at hp
    exact hne (hp.symm.trans rfl)
  have h2 : segments (normalize_addr addr) ≠ [] := by rw [hp]; exact hne
  unfold geocode_with_trimming
  rw [if_neg h1, if_neg h2, hp]
  cases parts with
  | nil => exact absurd rfl hne
  | cons p ps =>
    simp only [List.length_cons]
    simp [trimLoop, geocode_once, List.take_succ_cons, List.take_length,
      hg, hst, hres]

/-- Writes distribute over trace concatenation. -/
theorem writesOf_append (a b : List Event) :
    writesOf (a ++ b) = writesOf a ++ writesOf b :=
  List.filterMap_append a b _

/-- A trace made of call events only contains no writes. -/
theorem writesOf_calls_nil (tr : List Event)
    (h : ∀ e ∈ tr, ∃ a, e = Event.call a) : writesOf tr = [] := by
  unfold writesOf
  rw [List.filterMap_eq_nil_iff]
  intro e he
  obtain ⟨a, rfl⟩ := h e he
  rfl

/-- Each parsed record makes main write exactly its one output row. -/
theorem writesOf_processLine {α : Type} [ToString α] (g : Geo α)
    (line rid addr : String) (h : parse_line line = some (rid, addr)) :
    writesOf (processLine g line) = [recordLine g rid addr] := by
  by_cases ha : addr = ""
  · subst ha
    simp [processLine, recordLine, h, writesOf]
  · have hp : processLine g line
        = (geocode_with_trimming g addr).1
            ++ [Event.write (outLine rid addr (resolve g addr).1 (resolve g addr).2),
                Event.sleep] := by
      simp [processLine, h, ha]
    rw [hp, writesOf_append, writesOf_calls_nil _ (trim_calls g addr)]
    simp [writesOf, recordLine, ha]

/-- The rows written by the main loop are exactly one per parsed record, in
input order. -/
theorem writesOf_mainLoop {α : Type} [ToString α] (g : Geo α)
    (lines : List String) :
    writesOf (mainLoop g lines)
      = (lines.filterMap parse_line).map (fun r => recordLine g r.1 r.2) := by
  induction lines with
  | nil => rfl
  | cons l rest ih =>
    show writesOf (processLine g l ++ mainLoop g rest) = _
    rw [writesOf_append, ih]
    cases h : parse_line l with
    | none => simp [processLine, h, List.filterMap_cons, writesOf]
    | some r =>
      obtain ⟨rid, addr⟩ := r
      rw [writesOf_processLine g l rid addr h]
      simp [List.filterMap_cons, h]

/-- C2: main writes the header line and then exactly one output row per
parsed input record (a line that is neither blank nor a header), in the
same relative order as the input lines. -/
theorem c2_one_row_per_record {α : Type} [ToString α] (g : Geo α)
    (lines : List String) :
    writesOf (mainEvents g lines)
      = "id,address,lat,lng\n"
          :: (lines.filterMap parse_line).map (fun r => recordLine g r.1 r.2) := by
  show "id,address,lat,lng\n" :: writesOf (mainLoop g lines) = _
  rw [writesOf_mainLoop]

/-- C3, counterexample: in a run with one record whose full candidate gets
ZERO_RESULTS and whose shortened candidate gets OK, the two geocoding calls
are adjacent in the trace with no delay between them, so the claimed pacing
property fails for this program. -/
theorem c3_counterexample : ¬ Paced (mainEvents gOracleZR ["1,\"a, b\""]) := by
  intro h
  obtain ⟨k, hk1, hk2, _⟩ :=
    h 1 2 (by omega) ⟨"a, b", by decide⟩ ⟨"a", by decide⟩
      (by intro k a h1 h2; omega)
  omega

/-- C3, amended: the fixed delay is issued once per record with a non-empty
address, after that record's output row is written; no sleep event occurs
among the candidate queries of the truncation loop itself. -/
theorem c3_delay_after_record {α : Type} [ToString α] (g : Geo α)
    (line rid addr : String) (h : parse_line line = some (rid, addr))
    (hne : addr ≠ "") :
    processLine g line
      = (geocode_with_trimming g addr).1
          ++ [Event.write (recordLine g rid addr), Event.sleep]
      ∧ Event.sleep ∉ (geocode_with_trimming g addr).1 := by
  constructor
  · simp [processLine, h, hne, recordLine]
  · intro hmem
    obtain ⟨a, ha⟩ := trim_calls g addr _ hmem
    cases ha

/-- Witness for the amended C3 at a concrete record and oracle. -/
theorem c3_delay_after_record_witness :
    processLine gOracleOK "1,a"
      = (geocode_with_trimming gOracleOK "a").1
          ++ [Event.write (recordLine gOracleOK "1" "a"), Event.sleep]
      ∧ Event.sleep ∉ (geocode_with_trimming gOracleOK "a").1 :=
  c3_delay_after_record gOracleOK "1,a" "1" "a" (by decide) (by decide)

/-- C4: whatever the oracle does, the single row written for a parsed
record carries the original parsed address (quote-escaped) in its address
field, never a shortened candidate. -/
theorem c4_original_address_written {α : Type} [ToString α] (g : Geo α)
    (line rid addr : String) (h : parse_line line = some (rid, addr)) :
    ∃ la ln : Option α, writesOf (processLine g line) = [outLine rid addr la ln] := by
  by_cases ha : addr = ""
  · subst ha
    refine ⟨none, none, ?_⟩
    rw [writesOf_processLine g line rid "" h]
    unfold recordLine
    rw [if_pos rfl, outLine_empty]
  · refine ⟨(resolve g addr).1, (resolve g addr).2, ?_⟩
    rw [writesOf_processLine g line rid addr h]
    unfold recordLine
    rw [if_neg ha]

/-- Witness for C4 at a record resolved through a shortened candidate: the
written row still carries the full original address. -/
theorem c4_original_address_written_witness :
    ∃ la ln : Option Int,
      writesOf (processLine gOracleZR "2,\"a, b\"") = [outLine "2" "a, b" la ln] :=
  c4_original_address_written gOracleZR "2,\"a, b\"" "2" "a, b" (by decide)

/-- C8: a record whose parsed address is empty makes main write the fixed
empty-address row, issue no geocoding call, and continue with the next
records. -/
theorem c8_empty_address {α : Type} [ToString α] (g : Geo α)
    (line rid : String) (rest : List String)
    (h : parse_line line = some (rid, "")) :
    processLine g line = [Event.write (rid ++ ",\"\",,\n")]
      ∧ (∀ a, Event.call a ∉ processLine g line)
      ∧ mainLoop g (line :: rest)
          = Event.write (rid ++ ",\"\",,\n") :: mainLoop g rest := by
  have hp : processLine g line = [Event.write (rid ++ ",\"\",,\n")] := by
    simp [processLine, h]
  refine ⟨hp, ?_, ?_⟩
  · intro a hmem
    rw [hp] at hmem
    simp at hmem
  · show processLine g line ++ mainLoop g rest = _
    rw [hp]
    rfl

/-- Witness for C8 at the concrete record 3 with an empty quoted address. -/
theorem c8_empty_address_witness :
    processLine gOracleOKEmpty "3,\"\"" = [Event.write ("3" ++ ",\"\",,\n")]
      ∧ (∀ a, Event.call a ∉ processLine gOracleOKEmpty "3,\"\"")
      ∧ mainLoop gOracleOKEmpty ["3,\"\"", "4,x"]
          = Event.write ("3" ++ ",\"\",,\n") :: mainLoop gOracleOKEmpty ["4,x"] :=
  c8_empty_address gOracleOKEmpty "3,\"\"" "3" ["4,x"] (by decide)

/-- C9: when the resolver raises, main still writes the record's row with
both coordinate fields empty and the loop goes on with the remaining
records. -/
theorem c9_exception_caught {α : Type} [ToString α] (g : Geo α)
    (line rid addr e : String) (rest : List String)
    (h : parse_line line = some (rid, addr)) (hne : addr ≠ "")
    (herr : (geocode_with_trimming g addr).2 = Except.error e) :
    processLine g line
      = (geocode_with_trimming g addr).1
          ++ [Event.write (outLine rid addr (none : Option α) none), Event.sleep]
      ∧ mainLoop g (line :: rest) = processLine g line ++ mainLoop g rest := by
  constructor
  · have hres : resolve g addr = (none, none) := by
      unfold resolve
      rw [herr]
    simp [processLine, h, hne, hres]
  · rfl

/-- Witness for C9 at a concrete record whose every call raises. -/
theorem c9_exception_caught_witness :
    processLine gOracleRaise "5,\"Some Address\""
      = (geocode_with_trimming gOracleRaise "Some Address").1
          ++ [Event.write (outLine "5" "Some Address" (none : Option Int) none),
              Event.sleep]
      ∧ mainLoop gOracleRaise ["5,\"Some Address\"", "6,x"]
          = processLine gOracleRaise "5,\"Some Address\""
              ++ mainLoop gOracleRaise ["6,x"] :=
  c9_exception_caught gOracleRaise "5,\"Some Address\"" "5" "Some Address"
    "ConnectionError" ["6,x"] (by decide) (by decide) (by decide)

/-- Witness for C1: a terminal status on the very first candidate of a
two-segment address stops the loop after one call with absent
coordinates, although a shorter candidate would have matched. -/
theorem c1_terminal_status_stops_witness :
    (geocode_with_trimming gOracleC1 "a, b").1.length = 0 + 1
      ∧ (geocode_with_trimming gOracleC1 "a, b").2 = Except.ok (none, none) :=
  c1_terminal_status_stops gOracleC1 "a, b" 0 "a, b" "REQUEST_DENIED"
    (by decide) (by decide) (by decide) (by decide)

/-- Witness for C10: an OK answer with an empty results list on the first
candidate of a two-segment address stops the loop after one call with
absent coordinates. -/
theorem c10_ok_empty_results_stops_witness :
    (geocode_with_trimming gOracleOKEmpty "a, b").1.length = 0 + 1
      ∧ (geocode_with_trimming gOracleOKEmpty "a, b").2 = Except.ok (none, none) :=
  c10_ok_empty_results_stops gOracleOKEmpty "a, b" 0 "a, b" ⟨"OK", []⟩
    (by decide) (by decide) (by decide) (by decide)

/-- Witness for C6: the full two-segment candidate answers OK, one single
call is made and its first result is returned. -/
theorem c6_full_candidate_ok_witness :
    geocode_with_trimming gOracleC6 "Moscow, Main St"
      = ([Event.call (String.intercalate ", " ["Moscow", "Main St"])],
          Except.ok (some 55, some 37)) :=
  c6_full_candidate_ok gOracleC6 "Moscow, Main St" ["Moscow", "Main St"]
    ⟨"OK", [((55 : Int), 37)]⟩ 55 37 []
    (by decide) (by decide) (by decide) (by decide) (by decide)

/-- A list whose members all equal one character is a replicate. -/
theorem eq_replicate_of_forall {l : List Char} {c : Char} (h : ∀ x ∈ l, x = c) :
    l = List.replicate l.length c := by
  induction l with
  | nil => rfl
  | cons a l ih =>
    simp only [List.length_cons, List.replicate_succ]
    rw [h a (List.mem_cons_self a l)]
    rw [List.cons.injEq]
    exact ⟨rfl, ih (fun x hx => h x (List.mem_cons_of_mem _ hx))⟩

/-- The leading quote run of a list is a replicate of quote characters. -/
theorem takeWhile_isQuote_replicate (l : List Char) :
    l.takeWhile isQuote = List.replicate (l.takeWhile isQuote).length '"' :=
  eq_replicate_of_forall (fun x hx => by
    have hq := List.mem_takeWhile_imp hx
    simpa [isQuote] using hq)

/-- C5, counterexample: on an address wrapped in two pairs of quotes the
code normalization strips both pairs while the claimed normalization
strips only one, so the two differ. -/
theorem c5_counterexample :
    normalize_addr "\"\"x\"\"" = "x" ∧ normalize_spec "\"\"x\"\"" = "\"x\""
      ∧ normalize_addr "\"\"x\"\"" ≠ normalize_spec "\"\"x\"\"" := by decide

/-- C5, amended: the resolver normalization strips surrounding whitespace
and then all leading and all trailing quote characters, however many and
even unmatched: the stripped address splits as a leading run of quotes,
the normalized core, and a trailing run of quotes, and the core neither
starts nor ends with a quote. -/
theorem c5_strips_all_outer_quotes (s : String) :
    ∃ k m : Nat,
      (pyStrip s).toList
          = List.replicate k '"' ++ ((normalize_addr s).toList
              ++ List.replicate m '"')
        ∧ (∀ c, (normalize_addr s).toList.head? = some c → c ≠ '"')
        ∧ (∀ c, (normalize_addr s).toList.getLast? = some c → c ≠ '"') := by
  have hl : (pyStrip s).toList = pyStripL s.toList := rfl
  have hn : (normalize_addr s).toList
      = dropTrailing isQuote ((pyStripL s.toList).dropWhile isQuote) := rfl
  refine ⟨((pyStripL s.toList).takeWhile isQuote).length,
    (((pyStripL s.toList).dropWhile isQuote).reverse.takeWhile isQuote).length,
    ?_, ?_, ?_⟩
  · rw [hl, hn]
    have hA : pyStripL s.toList
        = (pyStripL s.toList).takeWhile isQuote
            ++ (pyStripL s.toList).dropWhile isQuote :=
      (List.takeWhile_append_dropWhile isQuote (pyStripL s.toList)).symm
    have hB : (pyStripL s.toList).dropWhile isQuote
        = dropTrailing isQuote ((pyStripL s.toList).dropWhile isQuote)
            ++ (((pyStripL s.toList).dropWhile isQuote).reverse.takeWhile
                isQuote).reverse :=
      dropTrailing_append isQuote ((pyStripL s.toList).dropWhile isQuote)
    rw [takeWhile_isQuote_replicate
        (((pyStripL s.toList).dropWhile isQuote).reverse),
      List.reverse_replicate] at hB
    rw [takeWhile_isQuote_replicate (pyStripL s.toList)] at hA
    conv_lhs => rw [hA]
    conv_lhs => rw [hB]
  · intro c hc
    rw [hn] at hc
    have h2 := head?_dropTrailing isQuote _ c hc
    have h3 := head?_dropWhile_false isQuote (pyStripL s.toList) c h2
    simpa [isQuote] using h3
  · intro c hc
    rw [hn] at hc
    have h2 := getLast?_dropTrailing_false isQuote _ c hc
    simpa [isQuote] using h2

/-- A successful first-comma split decomposes the list at its first comma:
the prefix has no comma and rejoining with the comma gives the list
back. -/
theorem splitFirstCommaL_some (l : List Char) :
    ∀ pre post, splitFirstCommaL l = some (pre, post) →
      l = pre ++ ',' :: post ∧ ',' ∉ pre := by
  induction l with
  | nil => intro pre post h; cases h
  | cons c rest ih =>
    intro pre post h
    simp only [splitFirstCommaL] at h
    by_cases hc : c = ','
    · rw [if_pos hc] at h
      simp only [Option.some.injEq, Prod.mk.injEq] at h
      obtain ⟨hpre, hpost⟩ := h
      subst hc
      rw [← hpre, ← hpost]
      exact ⟨rfl, List.not_mem_nil ','⟩
    · rw [if_neg hc] at h
      cases hsp : splitFirstCommaL rest with
      | none => rw [hsp] at h; cases h
      | some pr =>
        obtain ⟨b, a⟩ := pr
        rw [hsp] at h
        simp only [Option.map_some', Option.some.injEq, Prod.mk.injEq] at h
        obtain ⟨hpre, hpost⟩ := h
        obtain ⟨hb, hnb⟩ := ih b a hsp
        subst hpost
        rw [← hpre]
        constructor
        · rw [List.cons_append, ← hb]
        · intro hmem
          rcases List.mem_cons.mp hmem with h' | h'
          · exact hc h'.symm
          · exact hnb h'

/-- A failed first-comma split means the list holds no comma. -/
theorem splitFirstCommaL_none (l : List Char) (h : splitFirstCommaL l = none) :
    ',' ∉ l := by
  induction l with
  | nil => simp
  | cons c rest ih =>
    simp only [splitFirstCommaL] at h
    by_cases hc : c = ','
    · rw [if_pos hc] at h; cases h
    · rw [if_neg hc] at h
      cases hsp : splitFirstCommaL rest with
      | none =>
        intro hmem
        rcases List.mem_cons.mp hmem with h' | h'
        · exact hc h'.symm
        · exact ih hsp h'
      | some pr => rw [hsp] at h; cases h

/-- C7, counterexample: on the line 1 comma space x the parser returns the
address with its leading space stripped, while the claimed parser keeps
everything after the comma verbatim, so the two differ. -/
theorem c7_counterexample :
    parse_line "1, x" = some ("1", "x")
      ∧ parse_line_claim "1, x" = some ("1", " x")
      ∧ parse_line "1, x" ≠ parse_line_claim "1, x" := by decide

/-- C7, amended: the parser splits the stripped line at its first comma;
the row id is the text before the comma with surrounding whitespace
stripped, and the address is the text after the comma with surrounding
whitespace stripped, one pair of outer quotes removed and doubled quotes
collapsed; when the line holds no comma, the whole stripped line is the
row id and the address is empty. -/
theorem c7_split_first_comma (l r a : String) (h : parse_line l = some (r, a)) :
    (∃ pre post : List Char,
        (pyStrip l).toList = pre ++ ',' :: post ∧ ',' ∉ pre
          ∧ r = pyStrip ⟨pre⟩ ∧ a = addrClean ⟨post⟩)
      ∨ (',' ∉ (pyStrip l).toList ∧ r = pyStrip l ∧ a = "") := by
  unfold parse_line at h
  by_cases h1 : pyStrip l = ""
  · rw [if_pos h1] at h; cases h
  · rw [if_neg h1] at h
    by_cases h2 : List.isPrefixOf ['i', 'd', ',']
        ((pyStrip l).toList.map Char.toLower)
    · rw [if_pos h2] at h; cases h
    · rw [if_neg h2] at h
      cases hsp : splitFirstCommaL (pyStrip l).toList with
      | none =>
        simp only [hsp, Option.some.injEq, Prod.mk.injEq] at h
        obtain ⟨hr, ha⟩ := h
        right
        exact ⟨splitFirstCommaL_none _ hsp,
          by rw [← hr, pyStrip_idem], ha.symm⟩
      | some pr =>
        obtain ⟨pre, post⟩ := pr
        simp only [hsp, Option.some.injEq, Prod.mk.injEq] at h
        obtain ⟨hr, ha⟩ := h
        left
        obtain ⟨heq, hnmem⟩ := splitFirstCommaL_some _ pre post hsp
        exact ⟨pre, post, heq, hnmem, hr.symm, ha.symm⟩

/-- Witness for the amended C7 at a concrete quoted record. -/
theorem c7_split_first_comma_witness :
    (∃ pre post : List Char,
        (pyStrip "7,\"a\"").toList = pre ++ ',' :: post ∧ ',' ∉ pre
          ∧ "7" = pyStrip ⟨pre⟩ ∧ "a" = addrClean ⟨post⟩)
      ∨ (',' ∉ (pyStrip "7,\"a\"").toList ∧ "7" = pyStrip "7,\"a\"" ∧ "a" = "") :=
  c7_split_first_comma "7,\"a\"" "7" "a" (by decide)
